import Mathlib

/-!
Verification of the bulk FASTQ upload pipeline
(`bulk_upload_to_library.py`): compression sniffing, dataset-name
derivation, the sequential upload producer, and the asyncio
queue / rename-worker lifecycle, shallowly embedded as Lean
definitions with theorems about them.
-/

set_option maxHeartbeats 1000000

namespace BulkUpload

/-- Mirrors the Python `CompressionType` enum. -/
inductive CompressionType where
  | GZIP
  | BZIP2
  | NONE
deriving DecidableEq, Repr

/-- `hasPfx pat s` holds when `pat` is an initial segment of `s`
(the spec's "byte string starts with ..."). -/
def hasPfx {α : Type} [DecidableEq α] : List α → List α → Bool
  | [], _ => true
  | _ :: _, [] => false
  | a :: as, b :: bs => if a = b then hasPfx as bs else false

/-- `detect_compression`: the file's leading bytes are read and compared
against the gzip magic (`read(2) == b'\x1f\x8b'`) and the bzip2 magic
(`read(3) == b'BZh'`, that is `42 5A 68`); `bytes` stands for the full
byte content of the file, of which `read(k)` yields `bytes.take k`. -/
def detect_compression (bytes : List Nat) : CompressionType :=
  if bytes.take 2 = [0x1f, 0x8b] then CompressionType.GZIP
  else if bytes.take 3 = [0x42, 0x5a, 0x68] then CompressionType.BZIP2
  else CompressionType.NONE

/-- The producer's format-label derivation (the `if/elif/elif/else`
chain in `upload_datasets`), with the defensive `ValueError` branch as
the error case. -/
def deriveFormat (c : CompressionType) : Except String String :=
  if c = CompressionType.GZIP then Except.ok "fastqsanger.gz"
  else if c = CompressionType.BZIP2 then Except.ok "fastqsanger.bz2"
  else if c = CompressionType.NONE then Except.ok "fastqsanger"
  else Except.error "Unknown compression type"

/-- First index at which `pat` occurs in `s`, if any; the success cases
of Python's `str.find`. -/
def pyFindAux (pat : List Char) : List Char → Option Nat
  | [] => if pat = [] then some 0 else none
  | c :: rest =>
    if hasPfx pat (c :: rest) then some 0
    else (pyFindAux pat rest).map (· + 1)

/-- Python's `str.find`: first occurrence index, or `-1` when absent. -/
def pyFind (s pat : List Char) : Int :=
  match pyFindAux pat s with
  | some n => (n : Int)
  | none => -1

/-- Python's slice `s[:p]`, including the negative-index convention. -/
def pySliceTo (s : List Char) (p : Int) : List Char :=
  if p < 0 then s.take ((s.length : Int) + p).toNat else s.take p.toNat

/-- The literal substring `'.fastq'` used by the producer. -/
def fastqPat : List Char := ".fastq".toList

/-- The producer's clean-name derivation:
`fastq_pos = dataset_name.find('.fastq'); dataset_name[:fastq_pos]`. -/
def cleanName (s : List Char) : List Char :=
  pySliceTo s (pyFind s fastqPat)

/-- `cleanName` on `String`s, for concrete examples. -/
def cleanNameStr (s : String) : String :=
  String.mk (cleanName s.toList)

/-- The payload of the Python `rename_info` dataclass. -/
structure rename_info where
  library_id : String
  dataset_id : String
  new_name : List Char
deriving DecidableEq, Repr

/-- A candidate file: its filename and the byte content its head is
read from during compression sniffing. -/
structure FileRec where
  name : List Char
  bytes : List Nat
deriving DecidableEq, Repr

/-- Observable producer-side events of `upload_datasets`: the
create-library call, each upload call, and each `queue.put`. -/
inductive PEvent where
  | createLib (name : String)
  | uploadCall (f : FileRec)
  | enqueue (r : rename_info)
deriving DecidableEq, Repr

/-- The per-file loop body of `upload_datasets`, iterated over the
globbed file list: classify compression, derive the format label
(possibly the defensive `ValueError`), call the upload (the `upload`
parameter abstracts `gi.libraries.upload_file_from_local_path`, taking
the file and format label and returning the new dataset id or raising),
derive the clean name, and `queue.put` a `rename_info`; any raise
aborts the remaining iterations. Returns the event trace and the
outcome. -/
def processFiles (libId : String) (upload : FileRec → String → Except String String) :
    List FileRec → List PEvent × Except String Unit
  | [] => ([], Except.ok ())
  | f :: rest =>
    match deriveFormat (detect_compression f.bytes) with
    | Except.error e => ([], Except.error e)
    | Except.ok fmt =>
      match upload f fmt with
      | Except.error e => ([PEvent.uploadCall f], Except.error e)
      | Except.ok datasetId =>
        let r : rename_info := ⟨libId, datasetId, cleanName f.name⟩
        let rec2 := processFiles libId upload rest
        (PEvent.uploadCall f :: PEvent.enqueue r :: rec2.1, rec2.2)

/-- The sequential part of `upload_datasets`: validate the directory
(`datasets_path.exists()` / `is_dir()`), create the library (the
`createLib` parameter abstracts `create_library`), then run the
per-file loop over the globbed files. -/
def upload_datasets (pathExists pathIsDir : Bool) (pathStr : String)
    (libraryName : String) (createLib : String → Except String String)
    (upload : FileRec → String → Except String String) (files : List FileRec) :
    List PEvent × Except String Unit :=
  if !pathExists || !pathIsDir then
    ([], Except.error ("path " ++ pathStr ++ " must be a directory"))
  else
    match createLib libraryName with
    | Except.error e => ([PEvent.createLib libraryName], Except.error e)
    | Except.ok libId =>
      let rec2 := processFiles libId upload files
      (PEvent.createLib libraryName :: rec2.1, rec2.2)

/-- The format label the producer derives for a file (the success
value of `deriveFormat` after `detect_compression`). -/
def formatOf (f : FileRec) : String :=
  match detect_compression f.bytes with
  | CompressionType.GZIP => "fastqsanger.gz"
  | CompressionType.BZIP2 => "fastqsanger.bz2"
  | CompressionType.NONE => "fastqsanger"

/-- The dataset id a given upload function returns for a file on
success (junk `""` in the failure case, which users guard against). -/
def uploadIdOf (upload : FileRec → String → Except String String) (f : FileRec) : String :=
  match upload f (formatOf f) with
  | Except.ok d => d
  | Except.error _ => ""

/-- The producer trace of an all-success run: for each file, one
upload call immediately followed by exactly one enqueue of the
`rename_info` built from the new dataset id and the clean name. -/
def successTrace (libId : String) (upload : FileRec → String → Except String String) :
    List FileRec → List PEvent
  | [] => []
  | f :: rest =>
    PEvent.uploadCall f ::
      PEvent.enqueue ⟨libId, uploadIdOf upload f, cleanName f.name⟩ ::
        successTrace libId upload rest

/-- Phase of one rename worker (`dataset_renamer`): blocked at
`queue.get`, holding an item before `wait_for_dataset` returned,
holding an item after it returned (about to rename), or terminated by
an exception that escaped its loop. -/
inductive WPhase where
  | idle
  | claimed (r : rename_info)
  | ready (r : rename_info)
  | crashed
deriving DecidableEq, Repr

/-- Observable events of the queue/worker system. -/
inductive SEvent where
  | putE (r : rename_info)
  | getE (i : Nat) (r : rename_info)
  | waitE (i : Nat) (r : rename_info)
  | renameOkE (i : Nat) (r : rename_info)
  | renameFailE (i : Nat) (r : rename_info)
  | cancelE
deriving DecidableEq, Repr

/-- State of the asyncio queue plus the worker pool of
`upload_datasets` / `dataset_renamer`. `pending` is the queue content,
`unfinished` the queue's unfinished-task counter (incremented by
`put`, decremented by `task_done`; `join` returns when it is zero),
`processed` the items for which `task_done` ran, `lost` the items
dequeued by a worker whose rename raised (so `task_done` never ran),
`enqueued` the history of puts. -/
structure SysState where
  pending : List rename_info
  unfinished : Nat
  workers : List WPhase
  processed : List rename_info
  enqueued : List rename_info
  lost : List rename_info
  producerDone : Bool
  cancelled : Bool
  events : List SEvent
deriving DecidableEq, Repr

/-- Scheduler actions: a producer `queue.put`, the producer finishing
its loop, a worker's `queue.get` returning, its `wait_for_dataset`
returning, its `update_library_dataset` returning (followed by
`task_done`) or raising (skipping `task_done` and killing the worker),
and `queue.join` returning followed by cancellation of all workers. -/
inductive Action where
  | put (r : rename_info)
  | prodDone
  | get (i : Nat)
  | waitRet (i : Nat)
  | renameOk (i : Nat)
  | renameFail (i : Nat)
  | cancel
deriving DecidableEq, Repr

/-- One step of the cooperative scheduler; `none` when the action is
not enabled in the given state. -/
def step (s : SysState) (a : Action) : Option SysState :=
  match a with
  | Action.put r =>
    if s.producerDone then none
    else some { s with
      pending := s.pending ++ [r],
      unfinished := s.unfinished + 1,
      enqueued := s.enqueued ++ [r],
      events := s.events ++ [SEvent.putE r] }
  | Action.prodDone =>
    if s.producerDone then none
    else some { s with producerDone := true }
  | Action.get i =>
    if s.cancelled then none
    else
      match s.workers[i]?, s.pending with
      | some WPhase.idle, r :: rest =>
        some { s with
          pending := rest,
          workers := s.workers.set i (WPhase.claimed r),
          events := s.events ++ [SEvent.getE i r] }
      | _, _ => none
  | Action.waitRet i =>
    if s.cancelled then none
    else
      match s.workers[i]? with
      | some (WPhase.claimed r) =>
        some { s with
          workers := s.workers.set i (WPhase.ready r),
          events := s.events ++ [SEvent.waitE i r] }
      | _ => none
  | Action.renameOk i =>
    if s.cancelled then none
    else
      match s.workers[i]? with
      | some (WPhase.ready r) =>
        some { s with
          workers := s.workers.set i WPhase.idle,
          processed := s.processed ++ [r],
          unfinished := s.unfinished - 1,
          events := s.events ++ [SEvent.renameOkE i r] }
      | _ => none
  | Action.renameFail i =>
    if s.cancelled then none
    else
      match s.workers[i]? with
      | some (WPhase.ready r) =>
        some { s with
          workers := s.workers.set i WPhase.crashed,
          lost := s.lost ++ [r],
          events := s.events ++ [SEvent.renameFailE i r] }
      | _ => none
  | Action.cancel =>
    if s.producerDone && s.unfinished == 0 && !s.cancelled then
      some { s with cancelled := true, events := s.events ++ [SEvent.cancelE] }
    else none

/-- Run a sequence of scheduler actions; `none` if any is disabled. -/
def run (s : SysState) : List Action → Option SysState
  | [] => some s
  | a :: as =>
    match step s a with
    | none => none
    | some s2 => run s2 as

/-- Initial system state: empty queue, `n` idle workers just created
by the coordinator. -/
def init (n : Nat) : SysState :=
  ⟨[], 0, List.replicate n WPhase.idle, [], [], [], false, false, []⟩

/-- The rename request held by a worker in the given phase, if any. -/
def wItem : WPhase → Option rename_info
  | WPhase.claimed r => some r
  | WPhase.ready r => some r
  | _ => none

/-- The rename requests currently held by workers. -/
def inflight (ws : List WPhase) : List rename_info :=
  ws.filterMap wItem

/-- Accounting invariant of the queue system: every put item is in the
queue, held by a worker, processed, or lost to a crashed worker; the
unfinished-task counter counts exactly the non-processed items; and
cancellation implies the counter hit zero with the producer done. -/
def Inv (s : SysState) : Prop :=
  (∀ r, s.enqueued.count r =
      s.pending.count r + (inflight s.workers).count r +
        s.processed.count r + s.lost.count r) ∧
  s.unfinished = s.pending.length + (inflight s.workers).length + s.lost.length ∧
  (s.cancelled = true → s.unfinished = 0 ∧ s.producerDone = true)

/-- Event-trace safety: every rename attempt by worker `i` on request
`r` is preceded by the wait-for-ready return for that same dataset and
by the producer's put of that request (which itself happens only after
the file's upload completed). -/
def EventsSafe (es : List SEvent) : Prop :=
  ∀ t1 i r t2,
    (es = t1 ++ SEvent.renameOkE i r :: t2 ∨
     es = t1 ++ SEvent.renameFailE i r :: t2) →
    SEvent.waitE i r ∈ t1 ∧ SEvent.putE r ∈ t1

/-- A concrete state with worker 0 holding a request whose
wait-for-ready has returned: the state just before the rename call. -/
def demoReadyState : SysState :=
  ⟨[], 1, [WPhase.ready ⟨"L", "d1", ['x']⟩], [], [⟨"L", "d1", ['x']⟩], [],
    true, false,
    [SEvent.putE ⟨"L", "d1", ['x']⟩, SEvent.getE 0 ⟨"L", "d1", ['x']⟩,
      SEvent.waitE 0 ⟨"L", "d1", ['x']⟩]⟩

/-- Strengthening of `EventsSafe` tying worker phases to the trace. -/
def EvInv (s : SysState) : Prop :=
  EventsSafe s.events ∧
  (∀ r, r ∈ s.pending → SEvent.putE r ∈ s.events) ∧
  (∀ (i : Nat) (r : rename_info),
    s.workers[i]? = some (WPhase.claimed r) → SEvent.putE r ∈ s.events) ∧
  (∀ (i : Nat) (r : rename_info),
    s.workers[i]? = some (WPhase.ready r) →
    SEvent.waitE i r ∈ s.events ∧ SEvent.putE r ∈ s.events)

theorem hasPfx_iff_take {α : Type} [DecidableEq α] (pat s : List α) :
    hasPfx pat s = true ↔ s.take pat.length = pat := by
  induction pat generalizing s with
  | nil => simp [hasPfx]
  | cons a as ih =>
    cases s with
    | nil => simp [hasPfx]
    | cons b bs =>
      simp only [hasPfx, List.length_cons, List.take_succ_cons, List.cons.injEq]
      by_cases h : a = b
      · subst h
        simp [ih]
      · simp only [if_neg h, Bool.false_eq_true, false_iff, not_and]
        exact fun h2 => absurd h2.symm h

theorem pyFindAux_spec (pat s : List Char) (k : Nat)
    (h : pyFindAux pat s = some k) :
    hasPfx pat (s.drop k) = true ∧ ∀ j, j < k → hasPfx pat (s.drop j) = false := by
  induction s generalizing k with
  | nil =>
    unfold pyFindAux at h
    split at h
    · rename_i hp
      cases h
      subst hp
      exact ⟨rfl, fun j hj => absurd hj (Nat.not_lt_zero j)⟩
    · exact absurd h (by simp)
  | cons c rest ih =>
    unfold pyFindAux at h
    split at h
    · rename_i hp
      cases h
      exact ⟨hp, fun j hj => absurd hj (Nat.not_lt_zero j)⟩
    · rename_i hp
      rcases Option.map_eq_some'.mp h with ⟨k', hk', rfl⟩
      rcases ih k' hk' with ⟨h1, h2⟩
      refine ⟨h1, fun j hj => ?_⟩
      cases j with
      | zero => simpa using Bool.of_not_eq_true hp
      | succ j' => exact h2 j' (Nat.lt_of_succ_lt_succ hj)

theorem pyFindAux_none (pat s : List Char)
    (h : pyFindAux pat s = none) : ∀ j, hasPfx pat (s.drop j) = false := by
  induction s with
  | nil =>
    intro j
    unfold pyFindAux at h
    split at h
    · cases h
    · rename_i hp
      cases pat with
      | nil => exact absurd rfl hp
      | cons a as => simp [hasPfx]
  | cons c rest ih =>
    intro j
    unfold pyFindAux at h
    split at h
    · cases h
    · rename_i hp
      have hrest : pyFindAux pat rest = none := by
        cases hr : pyFindAux pat rest with
        | none => rfl
        | some k => rw [hr] at h; cases h
      cases j with
      | zero => simpa using Bool.of_not_eq_true hp
      | succ j' => exact ih hrest j'

/-- C1: byte sequences starting with `1F 8B` classify as gzip (label
`fastqsanger.gz`), those starting with `42 5A 68` as bzip2 (label
`fastqsanger.bz2`), and all others — including sequences shorter than
the magic prefixes — as uncompressed (label `fastqsanger`). -/
theorem compression_classification (bytes : List Nat) :
    (hasPfx [0x1f, 0x8b] bytes = true →
      detect_compression bytes = CompressionType.GZIP ∧
      deriveFormat (detect_compression bytes) = Except.ok "fastqsanger.gz") ∧
    (hasPfx [0x42, 0x5a, 0x68] bytes = true →
      detect_compression bytes = CompressionType.BZIP2 ∧
      deriveFormat (detect_compression bytes) = Except.ok "fastqsanger.bz2") ∧
    (hasPfx [0x1f, 0x8b] bytes = false → hasPfx [0x42, 0x5a, 0x68] bytes = false →
      detect_compression bytes = CompressionType.NONE ∧
      deriveFormat (detect_compression bytes) = Except.ok "fastqsanger") := by
  refine ⟨fun h1 => ?_, fun h2 => ?_, fun h1 h2 => ?_⟩
  · have ht : bytes.take 2 = [0x1f, 0x8b] := (hasPfx_iff_take _ _).mp h1
    have : detect_compression bytes = CompressionType.GZIP := by
      simp [detect_compression, ht]
    exact ⟨this, by rw [this]; rfl⟩
  · have ht : bytes.take 3 = [0x42, 0x5a, 0x68] := (hasPfx_iff_take _ _).mp h2
    have ht2 : bytes.take 2 ≠ [0x1f, 0x8b] := by
      have : bytes.take 2 = [0x42, 0x5a] := by
        have := congrArg (List.take 2) ht
        rwa [List.take_take] at this
      simp [this]
    have : detect_compression bytes = CompressionType.BZIP2 := by
      simp [detect_compression, ht, ht2]
    exact ⟨this, by rw [this]; rfl⟩
  · have ht1 : bytes.take 2 ≠ [0x1f, 0x8b] := by
      intro hc
      rw [(hasPfx_iff_take [0x1f, 0x8b] bytes).mpr hc] at h1
      cases h1
    have ht2 : bytes.take 3 ≠ [0x42, 0x5a, 0x68] := by
      intro hc
      rw [(hasPfx_iff_take [0x42, 0x5a, 0x68] bytes).mpr hc] at h2
      cases h2
    have : detect_compression bytes = CompressionType.NONE := by
      simp [detect_compression, ht1, ht2]
    exact ⟨this, by rw [this]; rfl⟩

/-- Witness for `compression_classification` at concrete byte heads. -/
theorem compression_classification_witness :
    (detect_compression [0x1f, 0x8b, 0x08] = CompressionType.GZIP ∧
      deriveFormat (detect_compression [0x1f, 0x8b, 0x08]) = Except.ok "fastqsanger.gz") ∧
    (detect_compression [0x42, 0x5a, 0x68, 0x39] = CompressionType.BZIP2 ∧
      deriveFormat (detect_compression [0x42, 0x5a, 0x68, 0x39]) = Except.ok "fastqsanger.bz2") ∧
    (detect_compression [0x40, 0x41] = CompressionType.NONE ∧
      deriveFormat (detect_compression [0x40, 0x41]) = Except.ok "fastqsanger") :=
  ⟨(compression_classification [0x1f, 0x8b, 0x08]).1 (by decide),
   (compression_classification [0x42, 0x5a, 0x68, 0x39]).2.1 (by decide),
   (compression_classification [0x40, 0x41]).2.2 (by decide) (by decide)⟩

/-- C2: for a filename containing `.fastq`, the derived clean name is
the prefix of the filename strictly before the first occurrence of
`.fastq`; in particular the three spec examples hold. -/
theorem clean_name_derivation :
    (∀ s : List Char, (∃ j, hasPfx fastqPat (s.drop j) = true) →
      ∃ k, hasPfx fastqPat (s.drop k) = true ∧
        (∀ j, j < k → hasPfx fastqPat (s.drop j) = false) ∧
        cleanName s = s.take k) ∧
    cleanNameStr "SRR1165236_1.fastq.gz" = "SRR1165236_1" ∧
    cleanNameStr "sample.fastq.bz2" = "sample" ∧
    cleanNameStr "sample.fastq" = "sample" := by
  refine ⟨fun s hex => ?_, by decide, by decide, by decide⟩
  cases hfind : pyFindAux fastqPat s with
  | none =>
    rcases hex with ⟨j, hj⟩
    rw [pyFindAux_none fastqPat s hfind j] at hj
    cases hj
  | some k =>
    rcases pyFindAux_spec fastqPat s k hfind with ⟨h1, h2⟩
    refine ⟨k, h1, h2, ?_⟩
    simp [cleanName, pyFind, hfind, pySliceTo]

/-- Witness for `clean_name_derivation` at a concrete filename. -/
theorem clean_name_derivation_witness :
    ∃ k, hasPfx fastqPat ("sample_1.fastq.gz".toList.drop k) = true ∧
      (∀ j, j < k → hasPfx fastqPat ("sample_1.fastq.gz".toList.drop j) = false) ∧
      cleanName "sample_1.fastq.gz".toList = "sample_1.fastq.gz".toList.take k :=
  clean_name_derivation.1 "sample_1.fastq.gz".toList ⟨8, by decide⟩

/-- C9: the classifier only ever returns one of the three enumerated
outcomes, so the producer's defensive unknown-compression-format
branch never fires: the format derivation always succeeds. -/
theorem unknown_format_branch_unreachable (bytes : List Nat) :
    (detect_compression bytes = CompressionType.GZIP ∨
     detect_compression bytes = CompressionType.BZIP2 ∨
     detect_compression bytes = CompressionType.NONE) ∧
    ∃ fmt, deriveFormat (detect_compression bytes) = Except.ok fmt := by
  cases h : detect_compression bytes with
  | GZIP => exact ⟨Or.inl rfl, "fastqsanger.gz", rfl⟩
  | BZIP2 => exact ⟨Or.inr (Or.inl rfl), "fastqsanger.bz2", rfl⟩
  | NONE => exact ⟨Or.inr (Or.inr rfl), "fastqsanger", rfl⟩

theorem deriveFormat_detect (f : FileRec) :
    deriveFormat (detect_compression f.bytes) = Except.ok (formatOf f) := by
  unfold formatOf
  cases h : detect_compression f.bytes <;> simp [deriveFormat]

/-- C3: if the upload of file `fK` raises after all earlier files
uploaded successfully, the loop emits no event for any later file, no
rename request for `fK` is enqueued (the trace ends at `fK`'s upload
call), and the run terminates with the propagated error. -/
theorem upload_failure_aborts (libId : String)
    (upload : FileRec → String → Except String String)
    (pre post : List FileRec) (fK : FileRec) (e : String)
    (hsucc : ∀ f ∈ pre, ∃ d, upload f (formatOf f) = Except.ok d)
    (hfail : upload fK (formatOf fK) = Except.error e) :
    processFiles libId upload (pre ++ fK :: post) =
      ((processFiles libId upload pre).1 ++ [PEvent.uploadCall fK],
        Except.error e) := by
  induction pre with
  | nil =>
    simp only [List.nil_append, processFiles, deriveFormat_detect fK, hfail]
  | cons f pre' ih =>
    rcases hsucc f (List.mem_cons_self f pre') with ⟨d, hd⟩
    have ih2 := ih (fun g hg => hsucc g (List.mem_cons_of_mem f hg))
    simp only [List.cons_append, processFiles, deriveFormat_detect f, hd,
      List.append_eq, ih2]

/-- Witness for `upload_failure_aborts` on a two-file run whose second
upload fails. -/
theorem upload_failure_aborts_witness :
    processFiles "lib1"
      (fun f _ => if f.name = "a.fastq".toList
        then Except.ok "id-a" else Except.error "boom")
      ([⟨"a.fastq".toList, [0x1f, 0x8b]⟩] ++ ⟨"b.fastq".toList, []⟩ :: []) =
      ((processFiles "lib1"
          (fun f _ => if f.name = "a.fastq".toList
            then Except.ok "id-a" else Except.error "boom")
          [⟨"a.fastq".toList, [0x1f, 0x8b]⟩]).1 ++
        [PEvent.uploadCall ⟨"b.fastq".toList, []⟩],
        Except.error "boom") :=
  upload_failure_aborts "lib1" _ [⟨"a.fastq".toList, [0x1f, 0x8b]⟩] []
    ⟨"b.fastq".toList, []⟩ "boom"
    (by intro f hf; exact ⟨"id-a", by simp at hf; subst hf; rfl⟩)
    (by rfl)

/-- C4: when the input path does not exist or is not a directory, the
pipeline stops with the I/O error and its trace is empty — in
particular no create-library call is ever made. -/
theorem invalid_dir_no_library (pathExists pathIsDir : Bool) (pathStr : String)
    (libraryName : String) (createLib : String → Except String String)
    (upload : FileRec → String → Except String String) (files : List FileRec)
    (h : pathExists = false ∨ pathIsDir = false) :
    upload_datasets pathExists pathIsDir pathStr libraryName createLib upload files =
      ([], Except.error ("path " ++ pathStr ++ " must be a directory")) ∧
    ∀ nm, PEvent.createLib nm ∉
      (upload_datasets pathExists pathIsDir pathStr libraryName createLib upload files).1 := by
  have hcond : (!pathExists || !pathIsDir) = true := by
    rcases h with h | h <;> simp [h]
  constructor
  · simp only [upload_datasets, hcond, if_true]
  · intro nm
    simp only [upload_datasets, hcond, if_true]
    exact List.not_mem_nil _

/-- Witness for `invalid_dir_no_library` at a concrete non-directory
path. -/
theorem invalid_dir_no_library_witness :
    upload_datasets true false "/tmp/nope" "lib"
      (fun _ => Except.ok "L1") (fun _ _ => Except.ok "D1")
      [⟨"a.fastq".toList, []⟩] =
      ([], Except.error ("path " ++ "/tmp/nope" ++ " must be a directory")) ∧
    ∀ nm, PEvent.createLib nm ∉
      (upload_datasets true false "/tmp/nope" "lib"
        (fun _ => Except.ok "L1") (fun _ _ => Except.ok "D1")
        [⟨"a.fastq".toList, []⟩]).1 :=
  invalid_dir_no_library true false "/tmp/nope" "lib"
    (fun _ => Except.ok "L1") (fun _ _ => Except.ok "D1")
    [⟨"a.fastq".toList, []⟩] (Or.inr rfl)

/-- C7: in an all-success run the full trace is the create-library
call followed, for each file in order, by its upload call immediately
followed by exactly one enqueued rename request carrying the new
dataset id and the derived clean name; uploads are never interleaved. -/
theorem upload_enqueue_alternation (pathStr libraryName libId : String)
    (createLib : String → Except String String)
    (upload : FileRec → String → Except String String) (files : List FileRec)
    (hcreate : createLib libraryName = Except.ok libId)
    (hsucc : ∀ f ∈ files, ∃ d, upload f (formatOf f) = Except.ok d) :
    upload_datasets true true pathStr libraryName createLib upload files =
      (PEvent.createLib libraryName :: successTrace libId upload files,
        Except.ok ()) := by
  have hloop : processFiles libId upload files =
      (successTrace libId upload files, Except.ok ()) := by
    induction files with
    | nil => rfl
    | cons f rest ih =>
      rcases hsucc f (List.mem_cons_self f rest) with ⟨d, hd⟩
      have ih2 := ih (fun g hg => hsucc g (List.mem_cons_of_mem f hg))
      have hid : uploadIdOf upload f = d := by
        simp [uploadIdOf, hd]
      simp only [processFiles, deriveFormat_detect f, hd, ih2, successTrace, hid]
  simp only [upload_datasets, Bool.not_true, Bool.or_self, Bool.false_eq_true,
    if_false, hcreate, hloop]

/-- Witness for `upload_enqueue_alternation` on a concrete two-file
run. -/
theorem upload_enqueue_alternation_witness :
    upload_datasets true true "/data" "lib"
      (fun _ => Except.ok "L1")
      (fun f _ => if f.name = "a.fastq.gz".toList
        then Except.ok "id-a" else Except.ok "id-b")
      [⟨"a.fastq.gz".toList, [0x1f, 0x8b]⟩, ⟨"b.fastq".toList, [0x41]⟩] =
      (PEvent.createLib "lib" ::
        successTrace "L1"
          (fun f _ => if f.name = "a.fastq.gz".toList
            then Except.ok "id-a" else Except.ok "id-b")
          [⟨"a.fastq.gz".toList, [0x1f, 0x8b]⟩, ⟨"b.fastq".toList, [0x41]⟩],
        Except.ok ()) :=
  upload_enqueue_alternation "/data" "lib" "L1" _ _ _ rfl
    (by
      intro f hf
      simp only [List.mem_cons, List.not_mem_nil, or_false] at hf
      rcases hf with hf | hf <;> subst hf
      · exact ⟨"id-a", by rfl⟩
      · exact ⟨"id-b", by rfl⟩)

/-- C10: with a valid directory and zero matched files, the run still
creates the library and completes normally: the producer makes no
upload call and enqueues nothing, and the queue system goes straight
from producer-done to cancellation with nothing processed and no
worker event. -/
theorem empty_glob_run (pathStr libraryName libId : String)
    (createLib : String → Except String String)
    (upload : FileRec → String → Except String String) (n : Nat)
    (hcreate : createLib libraryName = Except.ok libId) :
    upload_datasets true true pathStr libraryName createLib upload [] =
      ([PEvent.createLib libraryName], Except.ok ()) ∧
    run (init n) [Action.prodDone, Action.cancel] =
      some { init n with
        producerDone := true, cancelled := true, events := [SEvent.cancelE] } := by
  constructor
  · simp [upload_datasets, hcreate, processFiles]
  · simp [run, init, step]

/-- Witness for `empty_glob_run` at concrete arguments. -/
theorem empty_glob_run_witness :
    upload_datasets true true "/data" "lib"
      (fun _ => Except.ok "L1") (fun _ _ => Except.ok "D1") [] =
      ([PEvent.createLib "lib"], Except.ok ()) ∧
    run (init 4) [Action.prodDone, Action.cancel] =
      some { init 4 with
        producerDone := true, cancelled := true, events := [SEvent.cancelE] } :=
  empty_glob_run "/data" "lib" "L1"
    (fun _ => Except.ok "L1") (fun _ _ => Except.ok "D1") 4 rfl

theorem inflight_append (t d : List WPhase) :
    inflight (t ++ d) = inflight t ++ inflight d := by
  simp [inflight, List.filterMap_append]

theorem inflight_cons_idle (d : List WPhase) :
    inflight (WPhase.idle :: d) = inflight d := rfl

theorem inflight_cons_crashed (d : List WPhase) :
    inflight (WPhase.crashed :: d) = inflight d := rfl

theorem inflight_cons_claimed (r : rename_info) (d : List WPhase) :
    inflight (WPhase.claimed r :: d) = r :: inflight d := rfl

theorem inflight_cons_ready (r : rename_info) (d : List WPhase) :
    inflight (WPhase.ready r :: d) = r :: inflight d := rfl

theorem inflight_replicate_idle (n : Nat) :
    inflight (List.replicate n WPhase.idle) = [] := by
  induction n with
  | zero => rfl
  | succ n ih => rw [List.replicate_succ, inflight_cons_idle, ih]

theorem list_split_at {α : Type} {ws : List α} {i : Nat} {w : α}
    (h : ws[i]? = some w) :
    ws = ws.take i ++ w :: ws.drop (i + 1) ∧
    ∀ v, ws.set i v = ws.take i ++ v :: ws.drop (i + 1) := by
  rcases List.getElem?_eq_some.mp h with ⟨hlt, hget⟩
  constructor
  · conv_lhs => rw [← List.take_append_drop i ws]
    rw [← List.getElem_cons_drop ws i hlt, hget]
  · intro v
    exact List.set_eq_take_cons_drop v hlt

theorem step_inv {s s' : SysState} {a : Action}
    (h : step s a = some s') (hi : Inv s) : Inv s' := by
  rcases hi with ⟨h1, h2, h3⟩
  cases a with
  | put r =>
    simp only [step] at h
    split at h
    · cases h
    · rename_i hpd
      injection h with h
      subst h
      refine ⟨?_, ?_, ?_⟩
      · intro x
        simp only [List.count_append, List.count_cons, List.count_nil]
        have := h1 x
        omega
      · simp only [List.length_append, List.length_cons, List.length_nil]
        omega
      · intro hc
        exact absurd (h3 hc).2 hpd
  | prodDone =>
    simp only [step] at h
    split at h
    · cases h
    · injection h with h
      subst h
      exact ⟨h1, h2, fun hc => ⟨(h3 hc).1, rfl⟩⟩
  | get i =>
    simp only [step] at h
    split at h
    · cases h
    · rename_i hcanc
      split at h
      · rename_i hw hp
        injection h with h
        subst h
        rcases list_split_at hw with ⟨hws, hset⟩
        refine ⟨?_, ?_, ?_⟩
        · intro x
          have := h1 x
          rw [hws, hp] at this
          rw [hset]
          simp only [inflight_append, inflight_cons_idle, inflight_cons_claimed,
            List.count_append, List.count_cons, List.count_nil] at this ⊢
          omega
        · have := h2
          rw [hws, hp] at this
          rw [hset]
          simp only [inflight_append, inflight_cons_idle, inflight_cons_claimed,
            List.length_append, List.length_cons, List.length_nil] at this ⊢
          omega
        · intro hc
          exact absurd hc hcanc
      · cases h
  | waitRet i =>
    simp only [step] at h
    split at h
    · cases h
    · rename_i hcanc
      split at h
      · rename_i r hw
        injection h with h
        subst h
        rcases list_split_at hw with ⟨hws, hset⟩
        refine ⟨?_, ?_, ?_⟩
        · intro x
          have := h1 x
          rw [hws] at this
          rw [hset]
          simp only [inflight_append, inflight_cons_claimed, inflight_cons_ready,
            List.count_append, List.count_cons, List.count_nil] at this ⊢
          omega
        · have := h2
          rw [hws] at this
          rw [hset]
          simp only [inflight_append, inflight_cons_claimed, inflight_cons_ready,
            List.length_append, List.length_cons, List.length_nil] at this ⊢
          omega
        · intro hc
          exact absurd hc hcanc
      · cases h
  | renameOk i =>
    simp only [step] at h
    split at h
    · cases h
    · rename_i hcanc
      split at h
      · rename_i r hw
        injection h with h
        subst h
        rcases list_split_at hw with ⟨hws, hset⟩
        refine ⟨?_, ?_, ?_⟩
        · intro x
          have := h1 x
          rw [hws] at this
          rw [hset]
          simp only [inflight_append, inflight_cons_idle, inflight_cons_ready,
            List.count_append, List.count_cons, List.count_nil] at this ⊢
          omega
        · have := h2
          rw [hws] at this
          rw [hset]
          simp only [inflight_append, inflight_cons_idle, inflight_cons_ready,
            List.length_append, List.length_cons, List.length_nil] at this ⊢
          omega
        · intro hc
          exact absurd hc hcanc
      · cases h
  | renameFail i =>
    simp only [step] at h
    split at h
    · cases h
    · rename_i hcanc
      split at h
      · rename_i r hw
        injection h with h
        subst h
        rcases list_split_at hw with ⟨hws, hset⟩
        refine ⟨?_, ?_, ?_⟩
        · intro x
          have := h1 x
          rw [hws] at this
          rw [hset]
          simp only [inflight_append, inflight_cons_crashed, inflight_cons_ready,
            List.count_append, List.count_cons, List.count_nil] at this ⊢
          omega
        · have := h2
          rw [hws] at this
          rw [hset]
          simp only [inflight_append, inflight_cons_crashed, inflight_cons_ready,
            List.length_append, List.length_cons, List.length_nil] at this ⊢
          omega
        · intro hc
          exact absurd hc hcanc
      · cases h
  | cancel =>
    simp only [step] at h
    split at h
    · rename_i hcond
      simp only [Bool.and_eq_true, beq_iff_eq, Bool.not_eq_true'] at hcond
      injection h with h
      subst h
      exact ⟨h1, h2, fun _ => ⟨hcond.1.2, hcond.1.1⟩⟩
    · cases h

theorem run_inv (acts : List Action) (s s' : SysState)
    (h : run s acts = some s') (hi : Inv s) : Inv s' := by
  induction acts generalizing s with
  | nil =>
    simp only [run] at h
    injection h with h
    subst h
    exact hi
  | cons a as ih =>
    simp only [run] at h
    cases hstep : step s a with
    | none => rw [hstep] at h; cases h
    | some s2 => rw [hstep] at h; exact ih s2 h (step_inv hstep hi)

theorem init_inv (n : Nat) : Inv (init n) := by
  refine ⟨fun r => ?_, ?_, ?_⟩
  · simp [init, inflight_replicate_idle]
  · simp [init, inflight_replicate_idle]
  · intro hc
    simp [init] at hc

theorem snoc_split {α : Type} (es : List α) (e : α) (t1 : List α) (x : α) (t2 : List α)
    (h : es ++ [e] = t1 ++ x :: t2) :
    (∃ u, es = t1 ++ x :: u) ∨ (t1 = es ∧ x = e ∧ t2 = []) := by
  induction t1 generalizing es with
  | nil =>
    cases es with
    | nil =>
      simp only [List.nil_append] at h
      injection h with he ht
      exact Or.inr ⟨rfl, he.symm, ht.symm⟩
    | cons y es' =>
      simp only [List.cons_append, List.nil_append] at h
      injection h with hy hrest
      exact Or.inl ⟨es', by rw [List.nil_append, ← hy]⟩
  | cons a t1' ih =>
    cases es with
    | nil =>
      simp only [List.nil_append, List.cons_append] at h
      injection h with he ht
      exact absurd ht.symm (List.cons_ne_nil x t2 ∘ (List.append_eq_nil.mp · |>.2))
    | cons y es' =>
      simp only [List.cons_append] at h
      injection h with hy hrest
      rcases ih es' hrest with ⟨u, hu⟩ | ⟨h1, h2, h3⟩
      · exact Or.inl ⟨u, by rw [List.cons_append, ← hy, hu]⟩
      · exact Or.inr ⟨by rw [← hy, h1], h2, h3⟩

theorem set_lookup_of_lookup {α : Type} {ws : List α} {i : Nat} {w : α}
    (hw : ws[i]? = some w) (v : α) (j : Nat) :
    (ws.set i v)[j]? = if i = j then some v else ws[j]? := by
  rcases List.getElem?_eq_some.mp hw with ⟨hlt, _⟩
  rw [List.getElem?_set]
  by_cases hij : i = j
  · simp [hij, hij ▸ hlt]
  · simp [hij]

theorem eventsSafe_snoc (es : List SEvent) (e : SEvent)
    (hs : EventsSafe es)
    (he : ∀ (i : Nat) (r : rename_info),
      (e = SEvent.renameOkE i r ∨ e = SEvent.renameFailE i r) →
      SEvent.waitE i r ∈ es ∧ SEvent.putE r ∈ es) :
    EventsSafe (es ++ [e]) := by
  intro t1 i r t2 hsplit
  rcases hsplit with hq | hq
  · rcases snoc_split es e t1 _ t2 hq with ⟨u, hu⟩ | ⟨ht1, hx, _⟩
    · exact hs t1 i r u (Or.inl hu)
    · subst ht1
      exact he i r (Or.inl hx.symm)
  · rcases snoc_split es e t1 _ t2 hq with ⟨u, hu⟩ | ⟨ht1, hx, _⟩
    · exact hs t1 i r u (Or.inr hu)
    · subst ht1
      exact he i r (Or.inr hx.symm)

theorem mem_snoc_of_mem {α : Type} {x : α} {l : List α} (e : α) (h : x ∈ l) :
    x ∈ l ++ [e] :=
  List.mem_append.mpr (Or.inl h)

theorem step_ev_inv {s s' : SysState} {a : Action}
    (h : step s a = some s') (hi : EvInv s) : EvInv s' := by
  rcases hi with ⟨h1, h2, h3, h4⟩
  cases a with
  | put r =>
    simp only [step] at h
    split at h
    · cases h
    · injection h with h
      subst h
      refine ⟨?_, ?_, ?_, ?_⟩
      · refine eventsSafe_snoc _ _ h1 fun i r' hr => ?_
        rcases hr with hr | hr <;> cases hr
      · intro r' hr
        rcases List.mem_append.mp hr with hr | hr
        · exact mem_snoc_of_mem _ (h2 r' hr)
        · rw [List.mem_singleton.mp hr]
          exact List.mem_append.mpr (Or.inr (List.mem_singleton.mpr rfl))
      · intro j r' hj
        exact mem_snoc_of_mem _ (h3 j r' hj)
      · intro j r' hj
        exact ⟨mem_snoc_of_mem _ (h4 j r' hj).1, mem_snoc_of_mem _ (h4 j r' hj).2⟩
  | prodDone =>
    simp only [step] at h
    split at h
    · cases h
    · injection h with h
      subst h
      exact ⟨h1, h2, h3, h4⟩
  | get i =>
    simp only [step] at h
    split at h
    · cases h
    · split at h
      · rename_i r rest hw hp
        injection h with h
        subst h
        refine ⟨?_, ?_, ?_, ?_⟩
        · refine eventsSafe_snoc _ _ h1 fun i' r' hr => ?_
          rcases hr with hr | hr <;> cases hr
        · intro r' hr
          exact mem_snoc_of_mem _ (h2 r' (hp ▸ List.mem_cons_of_mem _ hr))
        · intro j r' hj
          rw [set_lookup_of_lookup hw] at hj
          by_cases hij : i = j
          · rw [if_pos hij] at hj
            injection hj with hj
            injection hj with hj
            rw [← hj]
            refine mem_snoc_of_mem _ (h2 r ?_)
            rw [hp]
            exact List.mem_cons_self _ _
          · rw [if_neg hij] at hj
            exact mem_snoc_of_mem _ (h3 j r' hj)
        · intro j r' hj
          rw [set_lookup_of_lookup hw] at hj
          by_cases hij : i = j
          · rw [if_pos hij] at hj
            injection hj with hj
            cases hj
          · rw [if_neg hij] at hj
            exact ⟨mem_snoc_of_mem _ (h4 j r' hj).1, mem_snoc_of_mem _ (h4 j r' hj).2⟩
      · cases h
  | waitRet i =>
    simp only [step] at h
    split at h
    · cases h
    · split at h
      · rename_i r hw
        injection h with h
        subst h
        refine ⟨?_, ?_, ?_, ?_⟩
        · refine eventsSafe_snoc _ _ h1 fun i' r' hr => ?_
          rcases hr with hr | hr <;> cases hr
        · intro r' hr
          exact mem_snoc_of_mem _ (h2 r' hr)
        · intro j r' hj
          rw [set_lookup_of_lookup hw] at hj
          by_cases hij : i = j
          · rw [if_pos hij] at hj
            injection hj with hj
            cases hj
          · rw [if_neg hij] at hj
            exact mem_snoc_of_mem _ (h3 j r' hj)
        · intro j r' hj
          rw [set_lookup_of_lookup hw] at hj
          by_cases hij : i = j
          · rw [if_pos hij] at hj
            injection hj with hj
            injection hj with hj
            constructor
            · rw [← hij, ← hj]
              exact List.mem_append.mpr (Or.inr (List.mem_singleton.mpr rfl))
            · rw [← hj]
              exact mem_snoc_of_mem _ (h3 i r hw)
          · rw [if_neg hij] at hj
            exact ⟨mem_snoc_of_mem _ (h4 j r' hj).1, mem_snoc_of_mem _ (h4 j r' hj).2⟩
      · cases h
  | renameOk i =>
    simp only [step] at h
    split at h
    · cases h
    · split at h
      · rename_i r hw
        injection h with h
        subst h
        refine ⟨?_, ?_, ?_, ?_⟩
        · refine eventsSafe_snoc _ _ h1 fun i' r' hr => ?_
          rcases hr with hr | hr
          · injection hr with hi' hr'
            rw [← hi', ← hr']
            exact h4 i r hw
          · cases hr
        · intro r' hr
          exact mem_snoc_of_mem _ (h2 r' hr)
        · intro j r' hj
          rw [set_lookup_of_lookup hw] at hj
          by_cases hij : i = j
          · rw [if_pos hij] at hj
            injection hj with hj
            cases hj
          · rw [if_neg hij] at hj
            exact mem_snoc_of_mem _ (h3 j r' hj)
        · intro j r' hj
          rw [set_lookup_of_lookup hw] at hj
          by_cases hij : i = j
          · rw [if_pos hij] at hj
            injection hj with hj
            cases hj
          · rw [if_neg hij] at hj
            exact ⟨mem_snoc_of_mem _ (h4 j r' hj).1, mem_snoc_of_mem _ (h4 j r' hj).2⟩
      · cases h
  | renameFail i =>
    simp only [step] at h
    split at h
    · cases h
    · split at h
      · rename_i r hw
        injection h with h
        subst h
        refine ⟨?_, ?_, ?_, ?_⟩
        · refine eventsSafe_snoc _ _ h1 fun i' r' hr => ?_
          rcases hr with hr | hr
          · cases hr
          · injection hr with hi' hr'
            rw [← hi', ← hr']
            exact h4 i r hw
        · intro r' hr
          exact mem_snoc_of_mem _ (h2 r' hr)
        · intro j r' hj
          rw [set_lookup_of_lookup hw] at hj
          by_cases hij : i = j
          · rw [if_pos hij] at hj
            injection hj with hj
            cases hj
          · rw [if_neg hij] at hj
            exact mem_snoc_of_mem _ (h3 j r' hj)
        · intro j r' hj
          rw [set_lookup_of_lookup hw] at hj
          by_cases hij : i = j
          · rw [if_pos hij] at hj
            injection hj with hj
            cases hj
          · rw [if_neg hij] at hj
            exact ⟨mem_snoc_of_mem _ (h4 j r' hj).1, mem_snoc_of_mem _ (h4 j r' hj).2⟩
      · cases h
  | cancel =>
    simp only [step] at h
    split at h
    · injection h with h
      subst h
      refine ⟨?_, ?_, ?_, ?_⟩
      · refine eventsSafe_snoc _ _ h1 fun i' r' hr => ?_
        rcases hr with hr | hr <;> cases hr
      · intro r' hr
        exact mem_snoc_of_mem _ (h2 r' hr)
      · intro j r' hj
        exact mem_snoc_of_mem _ (h3 j r' hj)
      · intro j r' hj
        exact ⟨mem_snoc_of_mem _ (h4 j r' hj).1, mem_snoc_of_mem _ (h4 j r' hj).2⟩
    · cases h

theorem run_ev_inv (acts : List Action) (s s' : SysState)
    (h : run s acts = some s') (hi : EvInv s) : EvInv s' := by
  induction acts generalizing s with
  | nil =>
    simp only [run] at h
    injection h with h
    subst h
    exact hi
  | cons a as ih =>
    simp only [run] at h
    cases hstep : step s a with
    | none => rw [hstep] at h; cases h
    | some s2 => rw [hstep] at h; exact ih s2 h (step_ev_inv hstep hi)

theorem init_ev_inv (n : Nat) : EvInv (init n) := by
  refine ⟨?_, ?_, ?_, ?_⟩
  · intro t1 i r t2 hq
    simp only [init] at hq
    rcases hq with hq | hq <;>
      exact absurd hq.symm (List.cons_ne_nil _ t2 ∘ (List.append_eq_nil.mp · |>.2))
  · intro r hr
    simp only [init] at hr
    cases hr
  · intro j r hj
    simp only [init, List.getElem?_replicate] at hj
    split at hj
    · injection hj with hj
      cases hj
    · cases hj
  · intro j r hj
    simp only [init, List.getElem?_replicate] at hj
    split at hj
    · injection hj with hj
      cases hj
    · cases hj

/-- C5: whenever the coordinator reaches cancellation, the queue has
drained: the producer had finished, the unfinished-task counter is
zero, nothing is pending or held by a worker, and the processed list
is a permutation of the enqueued list — every enqueued rename request
was dequeued and processed exactly once. -/
theorem drain_before_cancel (n : Nat) (acts : List Action) (s : SysState)
    (h : run (init n) acts = some s) (hc : s.cancelled = true) :
    List.Perm s.processed s.enqueued ∧ s.producerDone = true ∧
    s.unfinished = 0 ∧ s.pending = [] ∧ inflight s.workers = [] ∧
    s.lost = [] := by
  have hinv := run_inv acts (init n) s h (init_inv n)
  rcases hinv with ⟨h1, h2, h3⟩
  rcases h3 hc with ⟨hz, hpd⟩
  have hp : s.pending = [] := List.length_eq_zero.mp (by omega)
  have hin : inflight s.workers = [] := List.length_eq_zero.mp (by omega)
  have hl : s.lost = [] := List.length_eq_zero.mp (by omega)
  refine ⟨?_, hpd, hz, hp, hin, hl⟩
  refine List.perm_iff_count.mpr fun x => ?_
  have := h1 x
  rw [hp, hin, hl] at this
  simp only [List.count_nil] at this
  omega

/-- Witness for `drain_before_cancel`: a full 2-worker, 2-request run
reaching cancellation. -/
theorem drain_before_cancel_witness :
    List.Perm
      (SysState.mk [] 0
        [WPhase.idle, WPhase.idle]
        [⟨"L", "d2", ['b']⟩, ⟨"L", "d1", ['a']⟩]
        [⟨"L", "d1", ['a']⟩, ⟨"L", "d2", ['b']⟩]
        [] true true
        [SEvent.putE ⟨"L", "d1", ['a']⟩, SEvent.putE ⟨"L", "d2", ['b']⟩,
          SEvent.getE 0 ⟨"L", "d1", ['a']⟩, SEvent.getE 1 ⟨"L", "d2", ['b']⟩,
          SEvent.waitE 0 ⟨"L", "d1", ['a']⟩, SEvent.waitE 1 ⟨"L", "d2", ['b']⟩,
          SEvent.renameOkE 1 ⟨"L", "d2", ['b']⟩, SEvent.renameOkE 0 ⟨"L", "d1", ['a']⟩,
          SEvent.cancelE]).processed
      (SysState.mk [] 0
        [WPhase.idle, WPhase.idle]
        [⟨"L", "d2", ['b']⟩, ⟨"L", "d1", ['a']⟩]
        [⟨"L", "d1", ['a']⟩, ⟨"L", "d2", ['b']⟩]
        [] true true
        [SEvent.putE ⟨"L", "d1", ['a']⟩, SEvent.putE ⟨"L", "d2", ['b']⟩,
          SEvent.getE 0 ⟨"L", "d1", ['a']⟩, SEvent.getE 1 ⟨"L", "d2", ['b']⟩,
          SEvent.waitE 0 ⟨"L", "d1", ['a']⟩, SEvent.waitE 1 ⟨"L", "d2", ['b']⟩,
          SEvent.renameOkE 1 ⟨"L", "d2", ['b']⟩, SEvent.renameOkE 0 ⟨"L", "d1", ['a']⟩,
          SEvent.cancelE]).enqueued :=
  (drain_before_cancel 2
    [Action.put ⟨"L", "d1", ['a']⟩, Action.put ⟨"L", "d2", ['b']⟩,
      Action.prodDone, Action.get 0, Action.get 1, Action.waitRet 0,
      Action.waitRet 1, Action.renameOk 1, Action.renameOk 0, Action.cancel]
    _ rfl rfl).1

/-- C8: in every run of the queue system, a worker's rename call for a
request happens only after the wait-for-ready call returned to that
worker for that same dataset and after the producer enqueued it
(enqueue follows that file's completed upload); between rename
completions of distinct files no order holds — two runs complete the
two renames in opposite orders. -/
theorem rename_after_own_wait_and_upload (n : Nat) (acts : List Action)
    (s : SysState) (h : run (init n) acts = some s) :
    EventsSafe s.events ∧
    Option.map SysState.events (run (init 2)
      [Action.put ⟨"L", "d1", ['a']⟩, Action.put ⟨"L", "d2", ['b']⟩,
        Action.prodDone, Action.get 0, Action.get 1, Action.waitRet 0,
        Action.waitRet 1, Action.renameOk 0, Action.renameOk 1, Action.cancel]) =
      some [SEvent.putE ⟨"L", "d1", ['a']⟩, SEvent.putE ⟨"L", "d2", ['b']⟩,
        SEvent.getE 0 ⟨"L", "d1", ['a']⟩, SEvent.getE 1 ⟨"L", "d2", ['b']⟩,
        SEvent.waitE 0 ⟨"L", "d1", ['a']⟩, SEvent.waitE 1 ⟨"L", "d2", ['b']⟩,
        SEvent.renameOkE 0 ⟨"L", "d1", ['a']⟩, SEvent.renameOkE 1 ⟨"L", "d2", ['b']⟩,
        SEvent.cancelE] ∧
    Option.map SysState.events (run (init 2)
      [Action.put ⟨"L", "d1", ['a']⟩, Action.put ⟨"L", "d2", ['b']⟩,
        Action.prodDone, Action.get 0, Action.get 1, Action.waitRet 0,
        Action.waitRet 1, Action.renameOk 1, Action.renameOk 0, Action.cancel]) =
      some [SEvent.putE ⟨"L", "d1", ['a']⟩, SEvent.putE ⟨"L", "d2", ['b']⟩,
        SEvent.getE 0 ⟨"L", "d1", ['a']⟩, SEvent.getE 1 ⟨"L", "d2", ['b']⟩,
        SEvent.waitE 0 ⟨"L", "d1", ['a']⟩, SEvent.waitE 1 ⟨"L", "d2", ['b']⟩,
        SEvent.renameOkE 1 ⟨"L", "d2", ['b']⟩, SEvent.renameOkE 0 ⟨"L", "d1", ['a']⟩,
        SEvent.cancelE] :=
  ⟨(run_ev_inv acts (init n) s h (init_ev_inv n)).1, rfl, rfl⟩

/-- Witness for `rename_after_own_wait_and_upload` on a concrete
completed run. -/
theorem rename_after_own_wait_and_upload_witness :
    EventsSafe
      [SEvent.putE ⟨"L", "d1", ['a']⟩, SEvent.putE ⟨"L", "d2", ['b']⟩,
        SEvent.getE 0 ⟨"L", "d1", ['a']⟩, SEvent.getE 1 ⟨"L", "d2", ['b']⟩,
        SEvent.waitE 0 ⟨"L", "d1", ['a']⟩, SEvent.waitE 1 ⟨"L", "d2", ['b']⟩,
        SEvent.renameOkE 0 ⟨"L", "d1", ['a']⟩, SEvent.renameOkE 1 ⟨"L", "d2", ['b']⟩,
        SEvent.cancelE] :=
  (rename_after_own_wait_and_upload 2
    [Action.put ⟨"L", "d1", ['a']⟩, Action.put ⟨"L", "d2", ['b']⟩,
      Action.prodDone, Action.get 0, Action.get 1, Action.waitRet 0,
      Action.waitRet 1, Action.renameOk 0, Action.renameOk 1, Action.cancel]
    (SysState.mk [] 0 [WPhase.idle, WPhase.idle]
      [⟨"L", "d1", ['a']⟩, ⟨"L", "d2", ['b']⟩]
      [⟨"L", "d1", ['a']⟩, ⟨"L", "d2", ['b']⟩]
      [] true true
      [SEvent.putE ⟨"L", "d1", ['a']⟩, SEvent.putE ⟨"L", "d2", ['b']⟩,
        SEvent.getE 0 ⟨"L", "d1", ['a']⟩, SEvent.getE 1 ⟨"L", "d2", ['b']⟩,
        SEvent.waitE 0 ⟨"L", "d1", ['a']⟩, SEvent.waitE 1 ⟨"L", "d2", ['b']⟩,
        SEvent.renameOkE 0 ⟨"L", "d1", ['a']⟩, SEvent.renameOkE 1 ⟨"L", "d2", ['b']⟩,
        SEvent.cancelE])
    rfl).1

/-- C6 is refuted by this run: worker 0 dequeues the only request, its
rename raises (`renameFailE` is in the trace), yet the item is never
marked processed — `processed` stays empty and the unfinished-task
counter stays 1, because `task_done` runs only after a successful
rename in `dataset_renamer`. -/
theorem rename_failure_leaves_item_unprocessed :
    Option.map (fun s => (s.processed, s.unfinished, s.events))
      (run (init 1) [Action.put ⟨"L", "d1", ['x']⟩, Action.prodDone,
        Action.get 0, Action.waitRet 0, Action.renameFail 0]) =
      some ([], 1,
        [SEvent.putE ⟨"L", "d1", ['x']⟩, SEvent.getE 0 ⟨"L", "d1", ['x']⟩,
          SEvent.waitE 0 ⟨"L", "d1", ['x']⟩,
          SEvent.renameFailE 0 ⟨"L", "d1", ['x']⟩]) := rfl

/-- C6 (amended): a dequeued request is marked processed for
drain-tracking only when the rename call returns successfully; when
the rename raises, `task_done` never runs — `processed` and
`unfinished` are unchanged, the item is lost and the worker
terminates. -/
theorem task_done_only_on_rename_success (s : SysState) (i : Nat)
    (r : rename_info) (hw : s.workers[i]? = some (WPhase.ready r))
    (hc : s.cancelled = false) :
    step s (Action.renameFail i) =
      some { s with
        workers := s.workers.set i WPhase.crashed,
        lost := s.lost ++ [r],
        events := s.events ++ [SEvent.renameFailE i r] } ∧
    step s (Action.renameOk i) =
      some { s with
        workers := s.workers.set i WPhase.idle,
        processed := s.processed ++ [r],
        unfinished := s.unfinished - 1,
        events := s.events ++ [SEvent.renameOkE i r] } := by
  constructor <;> simp [step, hc, hw]

/-- Witness for `task_done_only_on_rename_success` at a concrete
pre-rename state. -/
theorem task_done_only_on_rename_success_witness :
    step demoReadyState (Action.renameFail 0) =
      some { demoReadyState with
        workers := demoReadyState.workers.set 0 WPhase.crashed,
        lost := demoReadyState.lost ++ [⟨"L", "d1", ['x']⟩],
        events := demoReadyState.events ++
          [SEvent.renameFailE 0 ⟨"L", "d1", ['x']⟩] } ∧
    step demoReadyState (Action.renameOk 0) =
      some { demoReadyState with
        workers := demoReadyState.workers.set 0 WPhase.idle,
        processed := demoReadyState.processed ++ [⟨"L", "d1", ['x']⟩],
        unfinished := demoReadyState.unfinished - 1,
        events := demoReadyState.events ++
          [SEvent.renameOkE 0 ⟨"L", "d1", ['x']⟩] } :=
  task_done_only_on_rename_success demoReadyState 0 ⟨"L", "d1", ['x']⟩ rfl rfl

end BulkUpload
